import Mathlib

/-!
Shallow embedding of the hangman repository's core:
`src/hangman/canvas.py` (LayerCell, Layer, Canvas), `src/hangman/word.py`
(Word) and `src/hangman/game.py` (Game scoring, GameRound), translated
definition by definition from the Python source.

Conventions used throughout:
* Python exceptions are modelled by `Except PyErr`; `ValueError` plays the
  role the spec calls `ShapeError`.
* Python `list`s become Lean `List`s; a Python `dict` (insertion ordered)
  becomes an association list.
* Machine characters are Lean `Char`s; `str.upper`/whitespace tests are
  modelled for the ASCII range the game uses (`'A'..'Z'` guesses,
  ASCII-art assets).
* Functions that in CPython recurse on a shrinking list are written with an
  explicit fuel argument (initialised to the list length, which always
  suffices) so that they are structurally recursive and evaluate by `decide`.
-/

namespace Hangman

/-- The Python exception classes that the embedded code can raise.
`valueError` is what the spec's taxonomy calls `ShapeError`. -/
inductive PyErr where
  | valueError
  | indexError
  | keyError
deriving DecidableEq, Repr

/-- `LayerCell` from `canvas.py`: an immutable cell with a position and a
single-character value.  The single-character invariant of
`LayerCell.__post_init__` is enforced at the construction sites (`mkCell`),
so `value` is stored as a `Char`. -/
structure LayerCell where
  row : Nat
  column : Nat
  value : Char
deriving DecidableEq, Repr

instance : Inhabited LayerCell := ⟨⟨0, 0, ' '⟩⟩

/-- Python `str.strip() == ''` on a one-character string: the character is
whitespace (ASCII whitespace; the game's assets are ASCII). -/
def pyIsSpace (c : Char) : Bool :=
  c = ' ' || c = '\t' || c = '\n' || c = '\x0b' || c = '\x0c' || c = '\r'

/-- `LayerCell.is_transparent`: whether the value is whitespace. -/
def LayerCell.is_transparent (c : LayerCell) : Bool :=
  pyIsSpace c.value

/-- `Layer` from `canvas.py`: a rectangle of cells stored row-major in
`cells` with the slots `_height` and `_width`. -/
structure Layer where
  cells : List LayerCell
  height : Nat
  width : Nat
deriving DecidableEq, Repr

/-- Building one cell inside `Layer.__new__`: `LayerCell(row, column, value)`
raises `ValueError` unless the value is exactly one character. -/
def mkCell (rowIndex columnIndex : Nat) (s : String) : Except PyErr LayerCell :=
  match s.toList with
  | [c] => .ok ⟨rowIndex, columnIndex, c⟩
  | _ => .error .valueError

/-- The inner loop of `Layer.__new__`: cells of one row, in column order,
stopping at the first invalid cell. -/
def rowCells (rowIndex : Nat) : Nat → List String → Except PyErr (List LayerCell)
  | _, [] => .ok []
  | columnIndex, s :: rest =>
    match mkCell rowIndex columnIndex s with
    | .error e => .error e
    | .ok c =>
      match rowCells rowIndex (columnIndex + 1) rest with
      | .error e => .error e
      | .ok cs => .ok (c :: cs)

/-- The outer loop of `Layer.__new__`: all cells, row-major. -/
def gridCells : Nat → List (List String) → Except PyErr (List LayerCell)
  | _, [] => .ok []
  | rowIndex, row :: rest =>
    match rowCells rowIndex 0 row with
    | .error e => .error e
    | .ok cs =>
      match gridCells (rowIndex + 1) rest with
      | .error e => .error e
      | .ok more => .ok (cs ++ more)

/-- `Layer.__new__`: construct a layer from a grid of cell strings.
On the empty grid, `grid[0]` raises `IndexError`; rows of unequal width
raise `ValueError`; a cell that is not exactly one character makes
`LayerCell.__post_init__` raise `ValueError`. -/
def Layer.new (rows : List (List String)) : Except PyErr Layer :=
  match rows with
  | [] => .error .indexError
  | first :: _ =>
    if rows.all (fun row => row.length == first.length) then
      match gridCells 0 rows with
      | .error e => .error e
      | .ok cells => .ok ⟨cells, rows.length, first.length⟩
    else .error .valueError

/-- `itertools.batched` with right space padding of the last chunk, as used
by `Layer.from_sequence`.  Fuel-structural; `chunkPad` supplies fuel that
always suffices. -/
def chunkPadF : Nat → List Char → Nat → List (List Char)
  | 0, _, _ => []
  | fuel + 1, cs, w =>
    if cs.isEmpty then []
    else if cs.length ≤ w then [cs ++ List.replicate (w - cs.length) ' ']
    else cs.take w :: chunkPadF fuel (cs.drop w) w

/-- The chunking loop of `Layer.from_sequence`. -/
def chunkPad (cs : List Char) (w : Nat) : List (List Char) :=
  chunkPadF cs.length cs w

/-- `Layer.from_sequence`: chunk a flat sequence of characters into rows of
`width` (last row space-padded) and build a layer from them.
`itertools.batched` raises `ValueError` when the chunk size is below 1. -/
def Layer.from_sequence (cells : List Char) (width : Nat) : Except PyErr Layer :=
  if width = 0 then .error .valueError
  else Layer.new ((chunkPad cells width).map (fun row => row.map Char.toString))

/-- `Layer.copy`: rebuild the layer from its cell values and its width. -/
def Layer.copy (l : Layer) : Except PyErr Layer :=
  Layer.from_sequence (l.cells.map LayerCell.value) l.width

/-- Python list item assignment `cells[index] = cell` (`IndexError` when out
of range). -/
def setCell (cs : List LayerCell) (i : Nat) (c : LayerCell) : Except PyErr (List LayerCell) :=
  if i < cs.length then .ok (cs.set i c) else .error .indexError

/-- The loop of `Layer.__iadd__`: for every non-transparent cell of the
overlay, overwrite the cell at the same flat index.
`dataclasses.replace(other_cell)` produces a value-equal copy, so the
overlay cell itself is stored. -/
def iaddCells (cs : List LayerCell) (index : Nat) : List LayerCell → Except PyErr (List LayerCell)
  | [] => .ok cs
  | o :: rest =>
    if o.is_transparent then iaddCells cs (index + 1) rest
    else
      match setCell cs index o with
      | .error e => .error e
      | .ok cs' => iaddCells cs' (index + 1) rest

/-- `Layer.__iadd__`: in-place merge; `ValueError` when the two layers'
heights or widths differ.  The height and width slots are not touched. -/
def Layer.iadd (self other : Layer) : Except PyErr Layer :=
  if self.height = other.height ∧ self.width = other.width then
    match iaddCells self.cells 0 other.cells with
    | .error e => .error e
    | .ok cells' => .ok ⟨cells', self.height, self.width⟩
  else .error .valueError

/-- `Layer.__add__`: pure merge — copy the left layer, then merge the right
layer into the copy in place. -/
def Layer.add (self other : Layer) : Except PyErr Layer :=
  match self.copy with
  | .error e => .error e
  | .ok copied => copied.iadd other

/-- `Layer.__eq__`: layers compare by their cell lists only. -/
def Layer.py_eq (a b : Layer) : Bool :=
  decide (a.cells = b.cells)

/-- `Layer.__getitem__` with a `(row, column)` pair: bounds check, then the
flat index `width * row + column` into the cell list. -/
def Layer.getCell (l : Layer) (r c : Nat) : Except PyErr LayerCell :=
  if r ≥ l.height ∨ c ≥ l.width then .error .indexError
  else
    match l.cells.get? (l.width * r + c) with
    | some cell => .ok cell
    | none => .error .indexError

/-- `itertools.batched` without padding, as used by `Layer.rows`.
Fuel-structural. -/
def chunksF : Nat → List LayerCell → Nat → List (List LayerCell)
  | 0, _, _ => []
  | fuel + 1, cs, w =>
    if cs.isEmpty then []
    else if cs.length ≤ w then [cs]
    else cs.take w :: chunksF fuel (cs.drop w) w

/-- `Layer.rows`: the cells batched into rows of `width`.  `batched` raises
`ValueError` when `width` is below 1. -/
def Layer.pyRows (l : Layer) : Except PyErr (List (List LayerCell)) :=
  if l.width = 0 then .error .valueError
  else .ok (chunksF l.cells.length l.cells l.width)

/-- Rendering a layer as in `Canvas.__str__`: each row's cell values joined,
rows joined by newlines. -/
def Layer.render (l : Layer) : Except PyErr String :=
  match l.pyRows with
  | .error e => .error e
  | .ok rows => .ok (String.intercalate "\n" (rows.map (fun row => String.mk (row.map LayerCell.value))))

/-- `Canvas` from `canvas.py`: a fixed height and width plus an ordered list
of layers. -/
structure Canvas where
  height : Nat
  width : Nat
  layers : List Layer
deriving DecidableEq, Repr

/-- `Canvas.__init__`. -/
def Canvas.init (height width : Nat) : Canvas :=
  ⟨height, width, []⟩

/-- `Canvas._fits_layer`: the layer has the canvas's height and width. -/
def Canvas.fits_layer (c : Canvas) (l : Layer) : Bool :=
  c.height == l.height && c.width == l.width

/-- `Canvas.add_layers`: check that every supplied layer fits before
extending the stored list; `ValueError` (and no mutation) otherwise. -/
def Canvas.add_layers (c : Canvas) (ls : List Layer) : Except PyErr Canvas :=
  if ls.all c.fits_layer then .ok { c with layers := c.layers ++ ls }
  else .error .valueError

/-- `Canvas.from_layer`: a canvas with the layer's dimensions holding that
single layer. -/
def Canvas.from_layer (l : Layer) : Except PyErr Canvas :=
  Canvas.add_layers (Canvas.init l.height l.width) [l]

/-- The fold `sum(others, start = first)` of `Canvas.__str__`: repeated
`Layer.__add__` in insertion order. -/
def foldAdd (acc : Layer) : List Layer → Except PyErr Layer
  | [] => .ok acc
  | l :: rest =>
    match acc.add l with
    | .error e => .error e
    | .ok acc' => foldAdd acc' rest

/-- `Canvas.__str__`: height lines of width blanks when there are no layers,
otherwise all layers merged left to right and rendered. -/
def Canvas.str (c : Canvas) : Except PyErr String :=
  match c.layers with
  | [] => .ok (String.intercalate "\n" (List.replicate c.height (String.mk (List.replicate c.width ' '))))
  | first :: others =>
    match foldAdd first others with
    | .error e => .error e
    | .ok flattened => flattened.render

/-- `str.upper` for the characters the game handles (ASCII). -/
def pyUpper (c : Char) : Char := c.toUpper

/-- `dict.setdefault(character, []).append(index)` on an insertion-ordered
dictionary modelled as an association list. -/
def addIndex (m : List (Char × List Nat)) (c : Char) (i : Nat) : List (Char × List Nat) :=
  match m with
  | [] => [(c, [i])]
  | (k, is) :: rest =>
    if k = c then (k, is ++ [i]) :: rest
    else (k, is) :: addIndex rest c i

/-- The index-building loop of `Word.__init__`. -/
def buildIndices : Nat → List Char → List (Char × List Nat) → List (Char × List Nat)
  | _, [], m => m
  | i, c :: rest, m => buildIndices (i + 1) rest (addIndex m c i)

/-- Dictionary lookup `self._character_indices[key]` (as an `Option`). -/
def findIndices (m : List (Char × List Nat)) (c : Char) : Option (List Nat) :=
  match m with
  | [] => none
  | (k, is) :: rest => if k = c then some is else findIndices rest c

/-- `Word` from `word.py`: the uppercased value, the reveal mask and the
character-to-indices dictionary. -/
structure Word where
  value : List Char
  masked : List Char
  character_indices : List (Char × List Nat)
deriving DecidableEq, Repr

/-- `Word.__init__`. -/
def Word.init (value : List Char) : Word :=
  let upper := value.map pyUpper
  { value := upper
    masked := List.replicate value.length '_'
    character_indices := buildIndices 0 upper [] }

/-- `Word.__contains__`: membership of the uppercased item among the
dictionary keys. -/
def Word.contains (w : Word) (item : Char) : Bool :=
  (findIndices w.character_indices (pyUpper item)).isSome

/-- Python list item assignment `self._masked[index] = guess`. -/
def setMasked (m : List Char) (i : Nat) (c : Char) : Except PyErr (List Char) :=
  if i < m.length then .ok (m.set i c) else .error .indexError

/-- The reveal loop of `Word.count`. -/
def writeIndices (m : List Char) (g : Char) : List Nat → Except PyErr (List Char)
  | [] => .ok m
  | i :: rest =>
    match setMasked m i g with
    | .error e => .error e
    | .ok m' => writeIndices m' g rest

/-- `Word.count`: return 0 when the (normalized) guess is not a key;
otherwise look the raw guess up in the dictionary — `KeyError` when that
raw key is absent — and reveal every listed index. -/
def Word.count (w : Word) (guess : Char) : Except PyErr (Word × Nat) :=
  if ¬ w.contains guess then .ok (w, 0)
  else
    match findIndices w.character_indices guess with
    | none => .error .keyError
    | some indices =>
      match writeIndices w.masked guess indices with
      | .error e => .error e
      | .ok masked' => .ok ({ w with masked := masked' }, indices.length)

/-- `Word.current_state`: the mask, space-joined. -/
def Word.current_state (w : Word) : String :=
  String.intercalate " " (w.masked.map Char.toString)

/-- `Word.all_clear`: no mask slot still holds an underscore. -/
def Word.all_clear (w : Word) : Bool :=
  w.masked.all (fun c => c != '_')

/-- The scoring state of `Game`: the running points plus the reward and
penalty parameters fixed at construction. -/
structure GameScore where
  points : Int
  reward : Int
  penalty : Int
deriving DecidableEq, Repr

/-- `Game.__init__` scoring fields: zero points. -/
def GameScore.init (reward penalty : Int) : GameScore :=
  ⟨0, reward, penalty⟩

/-- The `Game.points` setter: assignment clamps at zero. -/
def setPoints (g : GameScore) (value : Int) : GameScore :=
  { g with points := max value 0 }

/-- `Game.reward_correct_guess`: `points += reward * count * coefficient`
through the clamping setter. -/
def GameScore.reward_correct_guess (g : GameScore) (count coefficient : Int) : GameScore :=
  setPoints g (g.points + g.reward * count * coefficient)

/-- `Game.penalize_incorrect_guess`: `points += penalty * coefficient`
through the clamping setter. -/
def GameScore.penalize_incorrect_guess (g : GameScore) (coefficient : Int) : GameScore :=
  setPoints g (g.points + g.penalty * coefficient)

/-- The eight prebuilt `Component` layers.  Their ASCII-art sources are
static assets parsed at import time; the round receives them ready-made. -/
structure Components where
  gallows : Layer
  head : Layer
  trunk : Layer
  left_arm : Layer
  right_arm : Layer
  left_leg : Layer
  right_leg : Layer
  you_lost : Layer
deriving DecidableEq, Repr

/-- All body-part and loss layers share the gallows layer's dimensions (true
of the real 80-wide assets). -/
def Components.fit (cp : Components) : Bool :=
  [cp.head, cp.trunk, cp.left_arm, cp.right_arm, cp.left_leg, cp.right_leg, cp.you_lost].all
    (fun l => l.height == cp.gallows.height && l.width == cp.gallows.width)

/-- `GameRound` from `game.py`: the canvas, the reserve stack of body-part
layers, the word, the coefficient and the set of guesses (kept as an
insertion-ordered duplicate-free list). -/
structure GameRound where
  canvas : Canvas
  layer_stack : List Layer
  word : Word
  coefficient : Int
  guesses : List Char
deriving DecidableEq, Repr

/-- `GameRound.__init__`: canvas seeded from the gallows layer, a reserve of
exactly six body parts in their fixed order, a fresh word, no guesses. -/
def GameRound.init (comps : Components) (word : List Char) (coefficient : Int) :
    Except PyErr GameRound :=
  match Canvas.from_layer comps.gallows with
  | .error e => .error e
  | .ok canvas =>
    .ok { canvas := canvas
          layer_stack := [comps.head, comps.trunk, comps.left_arm,
                          comps.right_arm, comps.left_leg, comps.right_leg]
          word := Word.init word
          coefficient := coefficient
          guesses := [] }

/-- `GameRound.lives_left`: the number of layers left in the stack. -/
def GameRound.lives_left (r : GameRound) : Nat :=
  r.layer_stack.length

/-- `set.add` on the guess set. -/
def addGuess (guesses : List Char) (g : Char) : List Char :=
  if g ∈ guesses then guesses else guesses ++ [g]

/-- `GameRound._minus_1_life`: pop the front of the stack and add that layer
to the canvas (`pop(0)` on an empty list raises `IndexError`). -/
def GameRound.minus_1_life (r : GameRound) : Except PyErr GameRound :=
  match r.layer_stack with
  | [] => .error .indexError
  | l :: rest =>
    match r.canvas.add_layers [l] with
    | .error e => .error e
    | .ok canvas' => .ok { r with canvas := canvas', layer_stack := rest }

/-- `GameRound._handle_incorrect_guess`: penalize, lose one life and, when
no lives remain, add the loss overlay to the canvas. -/
def handle_incorrect_guess (comps : Components) (g : GameScore) (r : GameRound) :
    Except PyErr (GameScore × GameRound) :=
  let g' := g.penalize_incorrect_guess r.coefficient
  match r.minus_1_life with
  | .error e => .error e
  | .ok r' =>
    if r'.lives_left = 0 then
      match r'.canvas.add_layers [comps.you_lost] with
      | .error e => .error e
      | .ok canvas' => .ok (g', { r' with canvas := canvas' })
    else .ok (g', r')

/-- `GameRound._handle_correct_guess`: reward the guess. -/
def handle_correct_guess (g : GameScore) (r : GameRound) (count : Nat) : GameScore :=
  g.reward_correct_guess count r.coefficient

/-- `GameRound._start_turn`, with the already-validated guess supplied by
the input collaborator: count the guess in the word, record it, then branch
on whether any occurrence was found. -/
def start_turn (comps : Components) (g : GameScore) (r : GameRound) (guess : Char) :
    Except PyErr (GameScore × GameRound) :=
  match r.word.count guess with
  | .error e => .error e
  | .ok (word', count) =>
    let r' := { r with word := word', guesses := addGuess r.guesses guess }
    if count = 0 then handle_incorrect_guess comps g r'
    else .ok (handle_correct_guess g r' count, r')

/-- The guard of the `while` loop in `GameRound.start`:
`not self._word.all_clear and self.lives_left`. -/
def loopCond (r : GameRound) : Bool :=
  !r.word.all_clear && r.lives_left != 0

/-- The turn loop of `GameRound.start`, driven by the stream of validated
guesses the input collaborator produces (one list entry per turn). -/
def run_turns (comps : Components) (g : GameScore) (r : GameRound) :
    List Char → Except PyErr (GameScore × GameRound)
  | [] => .ok (g, r)
  | x :: xs =>
    if loopCond r then
      match start_turn comps g r x with
      | .error e => .error e
      | .ok (g', r') => run_turns comps g' r' xs
    else .ok (g, r)

/-- The outcome the tail of `GameRound.start` reports: the loss branch
(`not self.lives_left`) is checked before the win branch. -/
inductive RoundStatus where
  | in_progress
  | won
  | lost
deriving DecidableEq, Repr

/-- The round's terminal classification, in the source's checking order. -/
def GameRound.status (r : GameRound) : RoundStatus :=
  if r.lives_left = 0 then .lost
  else if r.word.all_clear then .won
  else .in_progress

/-!
A heap model for the mutation claims.  Python layers are heap objects which
`Layer.__iadd__` mutates in place; addresses are indices into a store of
layer values.  `Layer.__add__` allocates a fresh copy and mutates only that
copy, and `Canvas.__str__` folds `__add__` over the stored addresses — the
frame claims say no pre-existing object is ever written.
-/

/-- A heap of layer objects; an address is an index into the store. -/
abbrev Heap := List Layer

/-- Dereference an address. -/
def readL (h : Heap) (a : Nat) : Except PyErr Layer :=
  match List.get? h a with
  | some l => .ok l
  | none => .error .indexError

/-- Overwrite the object at an address. -/
def writeL (h : Heap) (a : Nat) (l : Layer) : Heap :=
  List.set h a l

/-- The length of a heap. -/
def heapLen (h : Heap) : Nat :=
  List.length h

/-- `Layer.__iadd__` on heap objects: read both operands, merge, write the
result back over `self`. -/
def iaddH (h : Heap) (selfA otherA : Nat) : Except PyErr Heap :=
  match readL h selfA with
  | .error e => .error e
  | .ok s =>
    match readL h otherA with
    | .error e => .error e
    | .ok o =>
      match s.iadd o with
      | .error e => .error e
      | .ok s' => .ok (writeL h selfA s')

/-- `Layer.__add__` on heap objects: allocate a copy of `self` at a fresh
address, then merge the other operand into the copy in place. -/
def addH (h : Heap) (selfA otherA : Nat) : Except PyErr (Heap × Nat) :=
  match readL h selfA with
  | .error e => .error e
  | .ok s =>
    match s.copy with
    | .error e => .error e
    | .ok copied =>
      match iaddH (h ++ [copied]) (heapLen h) otherA with
      | .error e => .error e
      | .ok h2 => .ok (h2, heapLen h)

/-- A canvas whose layers live on the heap. -/
structure CanvasH where
  height : Nat
  width : Nat
  layer_addrs : List Nat
deriving DecidableEq, Repr

/-- The fold `sum(others, start = first)` over heap layers. -/
def foldAddH (h : Heap) (acc : Nat) : List Nat → Except PyErr (Heap × Nat)
  | [] => .ok (h, acc)
  | o :: rest =>
    match addH h acc o with
    | .error e => .error e
    | .ok (h', acc') => foldAddH h' acc' rest

/-- `Canvas.__str__` on heap layers: blank frame when empty, otherwise fold
the pure merge over the addresses and render the flattened result. -/
def canvas_strH (h : Heap) (c : CanvasH) : Except PyErr (Heap × String) :=
  match c.layer_addrs with
  | [] => .ok (h, String.intercalate "\n" (List.replicate c.height (String.mk (List.replicate c.width ' '))))
  | first :: others =>
    match foldAddH h first others with
    | .error e => .error e
    | .ok (h', a) =>
      match readL h' a with
      | .error e => .error e
      | .ok flattened =>
        match flattened.render with
        | .error e => .error e
        | .ok s => .ok (h', s)

instance {ε : Type u} {α : Type v} [DecidableEq ε] [DecidableEq α] :
    DecidableEq (Except ε α) := fun x y =>
  match x, y with
  | .error a, .error b =>
    if h : a = b then isTrue (h ▸ rfl) else isFalse (fun hc => h (Except.error.inj hc))
  | .ok a, .ok b =>
    if h : a = b then isTrue (h ▸ rfl) else isFalse (fun hc => h (Except.ok.inj hc))
  | .error _, .ok _ => isFalse (fun hc => Except.noConfusion hc)
  | .ok _, .error _ => isFalse (fun hc => Except.noConfusion hc)

/-- The cell at a flat index (with a default for out-of-range access, used
only under an in-range hypothesis). -/
def cellAt (l : Layer) (i : Nat) : LayerCell :=
  l.cells.getD i default

/-- A well-formed layer, as produced by the constructors: the cell count
matches the positive dimensions and each cell carries its own row-major
coordinates. -/
def Layer.WF (l : Layer) : Prop :=
  l.cells.length = l.height * l.width ∧ 0 < l.height ∧ 0 < l.width ∧
  ∀ i, i < l.cells.length →
    (cellAt l i).row = i / l.width ∧ (cellAt l i).column = i % l.width

instance (l : Layer) : Decidable l.WF := by
  unfold Layer.WF
  infer_instance

/-- One scoring event of a game: a correct guess rewarded with its
occurrence count and the level coefficient, or an incorrect guess penalized
with the level coefficient. -/
inductive ScoreOp where
  | reward (count coefficient : Int)
  | penalize (coefficient : Int)
deriving DecidableEq, Repr

/-- Apply one scoring event through the corresponding `Game` method. -/
def applyOp (g : GameScore) : ScoreOp → GameScore
  | .reward count coefficient => g.reward_correct_guess count coefficient
  | .penalize coefficient => g.penalize_incorrect_guess coefficient

/-- Apply a whole sequence of scoring events. -/
def runOps (g : GameScore) : List ScoreOp → GameScore
  | [] => g
  | op :: rest => runOps (applyOp g op) rest

/-- The cell list `Layer.__new__` builds for one row of characters:
canonical coordinates starting at column `j`. -/
def mkRowCells (r : Nat) : Nat → List Char → List LayerCell
  | _, [] => []
  | j, c :: cs => ⟨r, j, c⟩ :: mkRowCells r (j + 1) cs

/-- The cell list `Layer.__new__` builds for a grid of characters, starting
at row `r`. -/
def mkGridCells : Nat → List (List Char) → List LayerCell
  | _, [] => []
  | r, row :: rest => mkRowCells r 0 row ++ mkGridCells (r + 1) rest

/-- The pure value computed by the `Layer.__iadd__` loop (what `iaddCells`
returns when every write lands in range). -/
def mergeCellList (cs : List LayerCell) (j : Nat) : List LayerCell → List LayerCell
  | [] => cs
  | o :: rest =>
    if o.is_transparent then mergeCellList cs (j + 1) rest
    else mergeCellList (cs.set j o) (j + 1) rest

/-- Example layer (2×2, one transparent cell) used to instantiate the merge
theorems on concrete inputs. -/
def exA : Layer :=
  ⟨[⟨0, 0, 'a'⟩, ⟨0, 1, ' '⟩, ⟨1, 0, 'c'⟩, ⟨1, 1, 'd'⟩], 2, 2⟩

/-- Example overlay layer (2×2). -/
def exB : Layer :=
  ⟨[⟨0, 0, ' '⟩, ⟨0, 1, 'x'⟩, ⟨1, 0, ' '⟩, ⟨1, 1, 'y'⟩], 2, 2⟩

/-- Example third layer (2×2). -/
def exC : Layer :=
  ⟨[⟨0, 0, 'z'⟩, ⟨0, 1, ' '⟩, ⟨1, 0, ' '⟩, ⟨1, 1, 'w'⟩], 2, 2⟩

/-- Example all-blank layer (2×2). -/
def exT : Layer :=
  ⟨[⟨0, 0, ' '⟩, ⟨0, 1, ' '⟩, ⟨1, 0, ' '⟩, ⟨1, 1, ' '⟩], 2, 2⟩

/-- Example components (eight 1×1 layers) used to instantiate the round
theorems on concrete inputs. -/
def exComps : Components :=
  ⟨⟨[⟨0, 0, 'G'⟩], 1, 1⟩, ⟨[⟨0, 0, 'h'⟩], 1, 1⟩, ⟨[⟨0, 0, 't'⟩], 1, 1⟩,
   ⟨[⟨0, 0, 'l'⟩], 1, 1⟩, ⟨[⟨0, 0, 'r'⟩], 1, 1⟩, ⟨[⟨0, 0, 'x'⟩], 1, 1⟩,
   ⟨[⟨0, 0, 'y'⟩], 1, 1⟩, ⟨[⟨0, 0, 'L'⟩], 1, 1⟩⟩

/-- Example round with one reserve layer left (used to instantiate the
turn-step theorems). -/
def exRound1 : GameRound :=
  ⟨⟨1, 1, [exComps.gallows]⟩, [exComps.head], Word.init ['A'], 2, []⟩

/-- The round `exRound1` becomes after the incorrect guess `'B'`: last life
lost, loss overlay added. -/
def exRound1After : GameRound :=
  ⟨⟨1, 1, [exComps.gallows, exComps.head, exComps.you_lost]⟩, [], Word.init ['A'], 2, ['B']⟩

/-- The round `GameRound.init exComps ['A'] 2` produces. -/
def exRound0 : GameRound :=
  ⟨⟨1, 1, [exComps.gallows]⟩,
   [exComps.head, exComps.trunk, exComps.left_arm, exComps.right_arm,
    exComps.left_leg, exComps.right_leg],
   Word.init ['A'], 2, []⟩

/-- The round `exRound0` becomes after the incorrect guess `'B'`. -/
def exRound0After : GameRound :=
  ⟨⟨1, 1, [exComps.gallows, exComps.head]⟩,
   [exComps.trunk, exComps.left_arm, exComps.right_arm, exComps.left_leg, exComps.right_leg],
   Word.init ['A'], 2, ['B']⟩

/-!
Theorems.
-/

theorem applyOp_points_nonneg (g : GameScore) (op : ScoreOp) : 0 ≤ (applyOp g op).points := by
  cases op <;>
    simp [applyOp, GameScore.reward_correct_guess, GameScore.penalize_incorrect_guess,
      setPoints, le_max_right]

theorem runOps_points_nonneg (ops : List ScoreOp) :
    ∀ g : GameScore, 0 ≤ g.points → 0 ≤ (runOps g ops).points := by
  induction ops with
  | nil => intro g hg; exact hg
  | cons op rest ih =>
    intro g _
    exact ih (applyOp g op) (applyOp_points_nonneg g op)

/-- Claim C10: the game's point total is never negative: starting from the
initial zero total, any sequence of correct-guess rewards and
incorrect-guess penalties (with arbitrary integer parameters) leaves the
observable points value at least zero, because every scoring operation
assigns through the clamping `points` setter. -/
theorem points_never_negative (reward penalty : Int) (ops : List ScoreOp) :
    0 ≤ (runOps (GameScore.init reward penalty) ops).points :=
  runOps_points_nonneg ops (GameScore.init reward penalty) le_rfl

/-- Claim C6: `add_layers` checks every supplied layer's shape against the
canvas's fixed shape before appending any: with any mismatched layer it
fails with the shape error and yields no modified canvas, and with all
shapes matching it appends all the layers in the given order. -/
theorem add_layers_all_or_nothing (c : Canvas) (ls : List Layer) :
    ((∃ l ∈ ls, c.fits_layer l = false) → c.add_layers ls = .error .valueError) ∧
    ((∀ l ∈ ls, c.fits_layer l = true) → c.add_layers ls = .ok { c with layers := c.layers ++ ls }) := by
  constructor
  · rintro ⟨l, hl, hfit⟩
    have hall : ¬ (ls.all c.fits_layer = true) := by
      rw [List.all_eq_true]
      intro hforall
      rw [hforall l hl] at hfit
      cases hfit
    unfold Canvas.add_layers
    rw [if_neg hall]
  · intro hforall
    have hall : ls.all c.fits_layer = true := by
      rw [List.all_eq_true]; exact hforall
    unfold Canvas.add_layers
    rw [if_pos hall]

theorem add_layers_all_or_nothing_witness :
    ((∃ l ∈ [Layer.mk [] 2 1], (Canvas.mk 1 1 []).fits_layer l = false) →
      (Canvas.mk 1 1 []).add_layers [Layer.mk [] 2 1] = .error .valueError) ∧
    ((∀ l ∈ [Layer.mk [⟨0, 0, 'a'⟩] 1 1], (Canvas.mk 1 1 []).fits_layer l = true) →
      (Canvas.mk 1 1 []).add_layers [Layer.mk [⟨0, 0, 'a'⟩] 1 1] =
        .ok { Canvas.mk 1 1 [] with layers := [] ++ [Layer.mk [⟨0, 0, 'a'⟩] 1 1] }) ∧
    (∃ l ∈ [Layer.mk [] 2 1], (Canvas.mk 1 1 []).fits_layer l = false) ∧
    (∀ l ∈ [Layer.mk [⟨0, 0, 'a'⟩] 1 1], (Canvas.mk 1 1 []).fits_layer l = true) :=
  ⟨(add_layers_all_or_nothing (Canvas.mk 1 1 []) [Layer.mk [] 2 1]).1,
   (add_layers_all_or_nothing (Canvas.mk 1 1 []) [Layer.mk [⟨0, 0, 'a'⟩] 1 1]).2,
   by decide, by decide⟩

theorem mkCell_error (r c : Nat) (s : String) (e : PyErr) (h : mkCell r c s = .error e) :
    e = .valueError := by
  unfold mkCell at h
  cases hs : s.toList with
  | nil => rw [hs] at h; cases h; rfl
  | cons a t =>
    cases t with
    | nil => rw [hs] at h; cases h
    | cons b t2 => rw [hs] at h; cases h; rfl

theorem mkCell_bad (r c : Nat) (s : String) (h : s.toList.length ≠ 1) :
    mkCell r c s = .error .valueError := by
  unfold mkCell
  cases hs : s.toList with
  | nil => rfl
  | cons a t =>
    cases t with
    | nil => rw [hs] at h; cases h rfl
    | cons b t2 => rfl

theorem rowCells_error (r : Nat) :
    ∀ (row : List String) (j : Nat) (e : PyErr),
      rowCells r j row = .error e → e = .valueError := by
  intro row
  induction row with
  | nil => intro j e h; cases h
  | cons s rest ih =>
    intro j e h
    unfold rowCells at h
    cases hm : mkCell r j s with
    | error e' =>
      rw [hm] at h; cases h
      exact mkCell_error r j s e hm
    | ok c =>
      rw [hm] at h
      cases hr : rowCells r (j + 1) rest with
      | error e' => rw [hr] at h; cases h; exact ih (j + 1) e hr
      | ok cs => rw [hr] at h; cases h

theorem rowCells_ok_single (r : Nat) :
    ∀ (row : List String) (j : Nat) (cs : List LayerCell),
      rowCells r j row = .ok cs → ∀ s ∈ row, s.toList.length = 1 := by
  intro row
  induction row with
  | nil => intro j cs _ s hs; cases hs
  | cons s0 rest ih =>
    intro j cs h s hs
    unfold rowCells at h
    cases hm : mkCell r j s0 with
    | error e => rw [hm] at h; cases h
    | ok c =>
      rw [hm] at h
      cases hr : rowCells r (j + 1) rest with
      | error e => rw [hr] at h; cases h
      | ok cs' =>
        cases hs with
        | head =>
          unfold mkCell at hm
          cases hl : s0.toList with
          | nil => rw [hl] at hm; cases hm
          | cons a t =>
            cases t with
            | nil => rfl
            | cons b t2 => rw [hl] at hm; cases hm
        | tail _ hmem => exact ih (j + 1) cs' hr s hmem

theorem gridCells_error :
    ∀ (rows : List (List String)) (i : Nat) (e : PyErr),
      gridCells i rows = .error e → e = .valueError := by
  intro rows
  induction rows with
  | nil => intro i e h; cases h
  | cons row rest ih =>
    intro i e h
    unfold gridCells at h
    cases hr : rowCells i 0 row with
    | error e' => rw [hr] at h; cases h; exact rowCells_error i row 0 e hr
    | ok cs =>
      rw [hr] at h
      cases hg : gridCells (i + 1) rest with
      | error e' => rw [hg] at h; cases h; exact ih (i + 1) e hg
      | ok more => rw [hg] at h; cases h

theorem gridCells_ok_single :
    ∀ (rows : List (List String)) (i : Nat) (cells : List LayerCell),
      gridCells i rows = .ok cells → ∀ row ∈ rows, ∀ s ∈ row, s.toList.length = 1 := by
  intro rows
  induction rows with
  | nil => intro i cells _ row hrow; cases hrow
  | cons row0 rest ih =>
    intro i cells h row hrow
    unfold gridCells at h
    cases hr : rowCells i 0 row0 with
    | error e => rw [hr] at h; cases h
    | ok cs =>
      rw [hr] at h
      cases hg : gridCells (i + 1) rest with
      | error e => rw [hg] at h; cases h
      | ok more =>
        cases hrow with
        | head => exact rowCells_ok_single i row0 0 cs hr
        | tail _ hmem => exact ih (i + 1) more hg row hmem

/-- Claim C7 counterexample: constructing a layer from the empty row
sequence fails, but with `IndexError` (the uncaught `grid[0]` access), not
with the `ValueError` that realizes the spec's `ShapeError`. -/
theorem layer_new_empty_not_shape_error :
    Layer.new ([] : List (List String)) = .error .indexError ∧
    (PyErr.indexError ≠ PyErr.valueError) := by
  constructor
  · rfl
  · intro h; cases h

theorem layer_new_cons (first : List String) (rest : List (List String)) :
    Layer.new (first :: rest) =
      if (first :: rest).all (fun row => row.length == first.length) then
        match gridCells 0 (first :: rest) with
        | .error e => .error e
        | .ok cells => .ok ⟨cells, (first :: rest).length, first.length⟩
      else .error .valueError := rfl

/-- Claim C7 (amended): constructing a layer fails on the empty row sequence
(with an index error rather than the shape error), and fails with the shape
error (`ValueError`) when any row's width differs from the first row's or,
widths being equal, when any cell is not exactly one character; in every
failure case no layer value is produced. -/
theorem layer_new_failure_cases (rows : List (List String)) :
    (rows = [] → Layer.new rows = .error .indexError) ∧
    (∀ first rest, rows = first :: rest →
      ((∃ r ∈ rows, r.length ≠ first.length) → Layer.new rows = .error .valueError) ∧
      ((∀ r ∈ rows, r.length = first.length) →
        (∃ r ∈ rows, ∃ s ∈ r, s.toList.length ≠ 1) →
        Layer.new rows = .error .valueError)) := by
  constructor
  · intro h; rw [h]; rfl
  · intro first rest hrows
    subst hrows
    constructor
    · rintro ⟨r, hr, hne⟩
      have hall : ¬ ((first :: rest).all (fun row => row.length == first.length) = true) := by
        rw [List.all_eq_true]
        intro hforall
        have hb := hforall r hr
        rw [beq_iff_eq] at hb
        exact hne hb
      rw [layer_new_cons, if_neg hall]
    · rintro hwidths ⟨r, hr, s, hs, hbad⟩
      have hall : (first :: rest).all (fun row => row.length == first.length) = true := by
        rw [List.all_eq_true]
        intro x hx
        rw [beq_iff_eq]
        exact hwidths x hx
      rw [layer_new_cons, if_pos hall]
      cases hg : gridCells 0 (first :: rest) with
      | error e =>
        rw [gridCells_error (first :: rest) 0 e hg]
      | ok cells =>
        exact absurd (gridCells_ok_single (first :: rest) 0 cells hg r hr s hs) hbad

theorem layer_new_failure_cases_witness :
    (Layer.new [["ab"], ["c"]] = .error .valueError) ∧
    (Layer.new [["a", "b"], ["c"]] = .error .valueError) ∧
    (Layer.new ([] : List (List String)) = .error .indexError) :=
  ⟨((layer_new_failure_cases [["ab"], ["c"]]).2 ["ab"] [["c"]] rfl).2
      (by decide) ⟨["ab"], by decide, "ab", by decide, by decide⟩,
   ((layer_new_failure_cases [["a", "b"], ["c"]]).2 ["a", "b"] [["c"]] rfl).1
      ⟨["c"], by decide, by decide⟩,
   (layer_new_failure_cases []).1 rfl⟩

/-- Claim C2 (divergence evidence): for `Word("APPLE")` the lowercase guess
`'p'` passes the normalized containment guard, yet `count` raises
`KeyError` because the dictionary lookup uses the raw, unnormalized guess;
the uppercase guess `'P'` returns 2 as documented. -/
theorem word_count_lowercase_keyerror :
    (Word.init "APPLE".toList).contains 'p' = true ∧
    (Word.init "APPLE".toList).count 'p' = .error .keyError ∧
    ((Word.init "APPLE".toList).count 'P').toOption.map Prod.snd = some 2 := by
  refine ⟨by decide, by decide, by decide⟩

theorem chunkPadF_succ (f : Nat) (vs : List Char) (w : Nat) :
    chunkPadF (f + 1) vs w =
      if vs.isEmpty then []
      else if vs.length ≤ w then [vs ++ List.replicate (w - vs.length) ' ']
      else vs.take w :: chunkPadF f (vs.drop w) w := rfl

theorem chunkPadF_exact :
    ∀ (n : Nat) (vs : List Char) (w fuel : Nat), 0 < w →
      vs.length = n * w → vs.length ≤ fuel →
      (chunkPadF fuel vs w).length = n ∧
      (∀ r ∈ chunkPadF fuel vs w, r.length = w) ∧
      (chunkPadF fuel vs w).flatten = vs := by
  intro n
  induction n with
  | zero =>
    intro vs w fuel hw hlen _
    have hvs : vs = [] := List.eq_nil_of_length_eq_zero (by simpa using hlen)
    subst hvs
    cases fuel <;> simp [chunkPadF]
  | succ n ih =>
    intro vs w fuel hw hlen hfuel
    have hpos : 0 < vs.length := by
      rw [hlen]; exact Nat.mul_pos (Nat.succ_pos n) hw
    cases fuel with
    | zero => omega
    | succ f =>
      have hne : vs.isEmpty = false := by
        cases vs with
        | nil => simp at hpos
        | cons a t => rfl
      by_cases hle : vs.length ≤ w
      · have hn0 : n = 0 := by
          by_contra hn
          have h2 : 2 * w ≤ (n + 1) * w := Nat.mul_le_mul_right w (by omega)
          omega
        subst hn0
        have hvw : vs.length = w := by simpa using hlen
        rw [chunkPadF_succ, hne]
        simp only [Bool.false_eq_true, if_false]
        rw [if_pos hle, hvw, Nat.sub_self, List.replicate_zero, List.append_nil]
        refine ⟨rfl, ?_, by simp⟩
        intro r hr
        rw [List.mem_singleton] at hr
        rw [hr, hvw]
      · have hrec := ih (vs.drop w) w f hw
          (by rw [List.length_drop, hlen, Nat.succ_mul]; omega)
          (by rw [List.length_drop]; omega)
        obtain ⟨hL, hW, hJ⟩ := hrec
        rw [chunkPadF_succ, hne]
        simp only [Bool.false_eq_true, if_false]
        rw [if_neg hle]
        refine ⟨by simp [hL], ?_, ?_⟩
        · intro r hr
          rw [List.mem_cons] at hr
          cases hr with
          | inl h => rw [h, List.length_take]; omega
          | inr h => exact hW r h
        · simp [hJ]

theorem rowCells_chars (r : Nat) :
    ∀ (cs : List Char) (j : Nat),
      rowCells r j (cs.map Char.toString) = .ok (mkRowCells r j cs) := by
  intro cs
  induction cs with
  | nil => intro j; rfl
  | cons c rest ih =>
    intro j
    have hm : mkCell r j (Char.toString c) = .ok ⟨r, j, c⟩ := rfl
    show rowCells r j (Char.toString c :: rest.map Char.toString) = _
    unfold rowCells
    rw [hm, ih (j + 1)]
    rfl

theorem gridCells_chars :
    ∀ (rows : List (List Char)) (i : Nat),
      gridCells i (rows.map (fun row => row.map Char.toString)) = .ok (mkGridCells i rows) := by
  intro rows
  induction rows with
  | nil => intro i; rfl
  | cons row rest ih =>
    intro i
    show gridCells i (row.map Char.toString :: rest.map (fun row => row.map Char.toString)) = _
    unfold gridCells
    rw [rowCells_chars i row 0, ih (i + 1)]
    rfl

theorem mkRowCells_length (r : Nat) :
    ∀ (cs : List Char) (j : Nat), (mkRowCells r j cs).length = cs.length := by
  intro cs
  induction cs with
  | nil => intro j; rfl
  | cons c rest ih => intro j; simp [mkRowCells, ih]

theorem mkRowCells_getD (r : Nat) :
    ∀ (cs : List Char) (j k : Nat), k < cs.length →
      (mkRowCells r j cs).getD k default = ⟨r, j + k, cs.getD k ' '⟩ := by
  intro cs
  induction cs with
  | nil => intro j k hk; cases hk
  | cons c rest ih =>
    intro j k hk
    cases k with
    | zero => rfl
    | succ k' =>
      have := ih (j + 1) k' (by simpa using hk)
      simp only [mkRowCells, List.getD_cons_succ, this]
      congr 1
      omega

theorem mkGridCells_length (w : Nat) :
    ∀ (rows : List (List Char)) (r0 : Nat), (∀ r ∈ rows, r.length = w) →
      (mkGridCells r0 rows).length = rows.length * w := by
  intro rows
  induction rows with
  | nil => intro r0 _; simp [mkGridCells]
  | cons row rest ih =>
    intro r0 hfit
    have hrow : row.length = w := hfit row (List.mem_cons_self row rest)
    have hrest : ∀ r ∈ rest, r.length = w := fun r hr => hfit r (List.mem_cons_of_mem row hr)
    simp only [mkGridCells, List.length_append, mkRowCells_length, ih r0.succ hrest, hrow,
      List.length_cons]
    ring

theorem mkGridCells_getD (w : Nat) (hw : 0 < w) :
    ∀ (rows : List (List Char)) (r0 i : Nat), (∀ r ∈ rows, r.length = w) →
      i < rows.length * w →
      (mkGridCells r0 rows).getD i default = ⟨r0 + i / w, i % w, rows.flatten.getD i ' '⟩ := by
  intro rows
  induction rows with
  | nil => intro r0 i _ hi; simp at hi
  | cons row rest ih =>
    intro r0 i hfit hi
    have hrow : row.length = w := hfit row (List.mem_cons_self row rest)
    have hrest : ∀ r ∈ rest, r.length = w := fun r hr => hfit r (List.mem_cons_of_mem row hr)
    have hlenrow : (mkRowCells r0 0 row).length = w := by rw [mkRowCells_length, hrow]
    by_cases hlt : i < w
    · have h1 : (mkGridCells r0 (row :: rest)).getD i default =
          (mkRowCells r0 0 row).getD i default := by
        simp only [mkGridCells]
        rw [List.getD_eq_getElem?_getD, List.getElem?_append_left (by omega),
          ← List.getD_eq_getElem?_getD]
      rw [h1, mkRowCells_getD r0 row 0 i (by omega), Nat.zero_add]
      have h2 : (row :: rest).flatten.getD i ' ' = row.getD i ' ' := by
        rw [List.flatten_cons, List.getD_eq_getElem?_getD,
          List.getElem?_append_left (by omega), ← List.getD_eq_getElem?_getD]
      rw [h2, Nat.div_eq_of_lt hlt, Nat.mod_eq_of_lt hlt, Nat.add_zero]
    · have hge : w ≤ i := by omega
      have h1 : (mkGridCells r0 (row :: rest)).getD i default =
          (mkGridCells (r0 + 1) rest).getD (i - w) default := by
        simp only [mkGridCells]
        rw [List.getD_eq_getElem?_getD, List.getElem?_append_right (by omega),
          ← List.getD_eq_getElem?_getD, hlenrow]
      have hibound : i - w < rest.length * w := by
        have : (row :: rest).length * w = rest.length * w + w := by
          rw [List.length_cons, Nat.succ_mul]
        omega
      rw [h1, ih (r0 + 1) (i - w) hrest hibound]
      have hx : i = (i - w) + w := by omega
      have hdiv : r0 + 1 + (i - w) / w = r0 + i / w := by
        conv_rhs => rw [hx]
        rw [Nat.add_div_right _ hw]
        omega
      have hmod : (i - w) % w = i % w := by
        conv_rhs => rw [hx]
        rw [Nat.add_mod_right]
      have hflat : rest.flatten.getD (i - w) ' ' = (row :: rest).flatten.getD i ' ' := by
        rw [List.flatten_cons, List.getD_eq_getElem?_getD (l := row ++ rest.flatten),
          List.getElem?_append_right (by omega), hrow, ← List.getD_eq_getElem?_getD]
      rw [hdiv, hmod, hflat]

theorem cellAt_ext (l : Layer) (i : Nat)
    (hrow : (cellAt l i).row = i / l.width) (hcol : (cellAt l i).column = i % l.width) :
    cellAt l i = ⟨i / l.width, i % l.width, (cellAt l i).value⟩ := by
  cases hc : cellAt l i with
  | mk r c v =>
    rw [hc] at hrow hcol
    simp at hrow hcol
    rw [hrow, hcol]

theorem Layer.copy_eq_self (l : Layer) (hl : l.WF) : l.copy = .ok l := by
  obtain ⟨hlen, hh, hwpos, hcoord⟩ := hl
  unfold Layer.copy Layer.from_sequence
  rw [if_neg (by omega)]
  have hvslen : (l.cells.map LayerCell.value).length = l.height * l.width := by
    rw [List.length_map, hlen]
  have hchunk := chunkPadF_exact l.height (l.cells.map LayerCell.value) l.width
    (l.cells.map LayerCell.value).length hwpos hvslen le_rfl
  obtain ⟨hcl, hcw, hcj⟩ := hchunk
  have hrows : chunkPad (l.cells.map LayerCell.value) l.width =
      chunkPadF (l.cells.map LayerCell.value).length (l.cells.map LayerCell.value) l.width := rfl
  rw [← hrows] at hcl hcw hcj
  cases hr : chunkPad (l.cells.map LayerCell.value) l.width with
  | nil =>
    rw [hr] at hcl
    simp at hcl
    omega
  | cons first rest =>
    rw [hr] at hcl hcw hcj
    have hfirst : first.length = l.width := hcw first (List.mem_cons_self first rest)
    rw [List.map_cons, layer_new_cons]
    have hall : ((first.map Char.toString) :: rest.map (fun row => row.map Char.toString)).all
        (fun row => row.length == (first.map Char.toString).length) = true := by
      rw [List.all_eq_true]
      intro x hx
      rw [beq_iff_eq, List.length_map]
      rw [List.mem_cons] at hx
      cases hx with
      | inl h => rw [h, List.length_map]
      | inr h =>
        obtain ⟨y, hy, hxy⟩ := List.mem_map.1 h
        rw [← hxy, List.length_map, hfirst, hcw y (List.mem_cons_of_mem first hy)]
    rw [if_pos hall]
    have hgc : gridCells 0 ((first.map Char.toString) :: rest.map (fun row => row.map Char.toString)) =
        .ok (mkGridCells 0 (first :: rest)) := by
      have := gridCells_chars (first :: rest) 0
      rw [List.map_cons] at this
      exact this
    rw [hgc]
    have hcells : mkGridCells 0 (first :: rest) = l.cells := by
      apply List.ext_getElem
      · rw [mkGridCells_length l.width (first :: rest) 0 hcw, hcl, hlen]
      · intro i h1 h2
        have hmlen : (mkGridCells 0 (first :: rest)).length = l.cells.length := by
          rw [mkGridCells_length l.width (first :: rest) 0 hcw, hcl, hlen]
        have hib : i < (first :: rest).length * l.width := by
          rw [hcl]; rw [hmlen] at h1; rw [hlen] at h1; exact h1
        have hgetd := mkGridCells_getD l.width hwpos (first :: rest) 0 i hcw hib
        rw [← List.getD_eq_getElem _ default h1, ← List.getD_eq_getElem _ default h2]
        rw [hgetd, hcj, Nat.zero_add]
        have hvalue : (l.cells.map LayerCell.value).getD i ' ' = (cellAt l i).value := by
          have : ' ' = LayerCell.value default := rfl
          rw [this, List.getD_map]
          rfl
        rw [hvalue]
        have := cellAt_ext l i (hcoord i h2).1 (hcoord i h2).2
        rw [← this]
        rfl
    rw [hcells]
    have hheight : ((first.map Char.toString) :: rest.map (fun row => row.map Char.toString)).length
        = l.height := by
      simp only [List.length_cons, List.length_map]
      have := hcl
      simp only [List.length_cons] at this
      omega
    have hwidth : (first.map Char.toString).length = l.width := by
      rw [List.length_map, hfirst]
    rw [hheight, hwidth]

theorem iaddCells_eq_merge :
    ∀ (os cs : List LayerCell) (j : Nat), j + os.length ≤ cs.length →
      iaddCells cs j os = .ok (mergeCellList cs j os) := by
  intro os
  induction os with
  | nil => intro cs j _; rfl
  | cons o rest ih =>
    intro cs j hb
    unfold iaddCells mergeCellList
    by_cases ht : o.is_transparent
    · rw [if_pos ht, if_pos ht]
      exact ih cs (j + 1) (by simp at hb; omega)
    · rw [if_neg ht, if_neg ht]
      have hj : j < cs.length := by simp at hb; omega
      unfold setCell
      rw [if_pos hj]
      exact ih (cs.set j o) (j + 1) (by simp at hb ⊢; omega)

theorem mergeCellList_length :
    ∀ (os cs : List LayerCell) (j : Nat), (mergeCellList cs j os).length = cs.length := by
  intro os
  induction os with
  | nil => intro cs j; rfl
  | cons o rest ih =>
    intro cs j
    unfold mergeCellList
    by_cases ht : o.is_transparent
    · rw [if_pos ht, ih]
    · rw [if_neg ht, ih, List.length_set]

theorem mergeCellList_getD_lt :
    ∀ (os cs : List LayerCell) (j i : Nat), i < j →
      (mergeCellList cs j os).getD i default = cs.getD i default := by
  intro os
  induction os with
  | nil => intro cs j i _; rfl
  | cons o rest ih =>
    intro cs j i hij
    unfold mergeCellList
    by_cases ht : o.is_transparent
    · rw [if_pos ht, ih cs (j + 1) i (by omega)]
    · rw [if_neg ht, ih (cs.set j o) (j + 1) i (by omega)]
      rw [List.getD_eq_getElem?_getD, List.getElem?_set_ne (by omega),
        ← List.getD_eq_getElem?_getD]

theorem mergeCellList_getD_in :
    ∀ (os cs : List LayerCell) (j k : Nat), k < os.length → j + os.length ≤ cs.length →
      (mergeCellList cs j os).getD (j + k) default =
        if (os.getD k default).is_transparent then cs.getD (j + k) default
        else os.getD k default := by
  intro os
  induction os with
  | nil => intro cs j k hk _; cases hk
  | cons o rest ih =>
    intro cs j k hk hb
    unfold mergeCellList
    cases k with
    | zero =>
      simp only [List.getD_cons_zero, Nat.add_zero]
      by_cases ht : o.is_transparent
      · rw [if_pos ht, if_pos ht]
        exact mergeCellList_getD_lt rest cs (j + 1) j (by omega)
      · rw [if_neg ht, if_neg ht]
        rw [mergeCellList_getD_lt rest (cs.set j o) (j + 1) j (by omega)]
        have hj : j < cs.length := by simp at hb; omega
        rw [List.getD_eq_getElem?_getD, List.getElem?_set_eq_of_lt o hj]
        rfl
    | succ k' =>
      rw [List.getD_cons_succ]
      have hidx : j + (k' + 1) = (j + 1) + k' := by omega
      by_cases ht : o.is_transparent
      · rw [if_pos ht, hidx]
        rw [ih cs (j + 1) k' (by simpa using hk) (by simp at hb; omega)]
      · rw [if_neg ht, hidx]
        rw [ih (cs.set j o) (j + 1) k' (by simpa using hk)
          (by simp at hb ⊢; omega)]
        have hne : (cs.set j o).getD ((j + 1) + k') default = cs.getD ((j + 1) + k') default := by
          rw [List.getD_eq_getElem?_getD, List.getElem?_set_ne (by omega),
            ← List.getD_eq_getElem?_getD]
        rw [hne]

theorem iaddCells_all_transparent :
    ∀ (os cs : List LayerCell) (j : Nat), (∀ c ∈ os, c.is_transparent = true) →
      iaddCells cs j os = .ok cs := by
  intro os
  induction os with
  | nil => intro cs j _; rfl
  | cons o rest ih =>
    intro cs j hall
    unfold iaddCells
    rw [if_pos (hall o (List.mem_cons_self o rest))]
    exact ih cs (j + 1) (fun c hc => hall c (List.mem_cons_of_mem o hc))

theorem Layer.add_spec (A B : Layer) (hA : A.WF) (hlen : B.cells.length = A.cells.length)
    (hh : A.height = B.height) (hw : A.width = B.width) :
    A.add B = .ok ⟨mergeCellList A.cells 0 B.cells, A.height, A.width⟩ := by
  unfold Layer.add
  rw [Layer.copy_eq_self A hA]
  show A.iadd B = _
  unfold Layer.iadd
  rw [if_pos ⟨hh, hw⟩]
  rw [iaddCells_eq_merge B.cells A.cells 0 (by omega)]

theorem merged_cellAt (A B : Layer) (hlen : B.cells.length = A.cells.length)
    (i : Nat) (hi : i < A.cells.length) :
    (mergeCellList A.cells 0 B.cells).getD i default =
      if (cellAt B i).is_transparent then cellAt A i else cellAt B i := by
  have := mergeCellList_getD_in B.cells A.cells 0 i (by omega) (by omega)
  rw [Nat.zero_add] at this
  exact this

theorem merge_WF (A B : Layer) (hA : A.WF) (hB : B.WF)
    (hh : A.height = B.height) (hw : A.width = B.width) :
    (Layer.mk (mergeCellList A.cells 0 B.cells) A.height A.width).WF := by
  obtain ⟨hlenA, hhA, hwA, hcoordA⟩ := hA
  obtain ⟨hlenB, hhB, hwB, hcoordB⟩ := hB
  have hlen : B.cells.length = A.cells.length := by rw [hlenA, hlenB, hh, hw]
  refine ⟨?_, hhA, hwA, ?_⟩
  · show (mergeCellList A.cells 0 B.cells).length = A.height * A.width
    rw [mergeCellList_length, hlenA]
  · intro i hi
    have hi' : i < A.cells.length := by
      rw [← mergeCellList_length B.cells A.cells 0]; exact hi
    have hcell : cellAt (Layer.mk (mergeCellList A.cells 0 B.cells) A.height A.width) i =
        (mergeCellList A.cells 0 B.cells).getD i default := rfl
    rw [hcell, merged_cellAt A B hlen i hi']
    by_cases ht : (cellAt B i).is_transparent
    · rw [if_pos ht]
      exact hcoordA i hi'
    · rw [if_neg ht]
      have hiB : i < B.cells.length := by omega
      have := hcoordB i hiB
      show (cellAt B i).row = i / A.width ∧ (cellAt B i).column = i % A.width
      rw [hw]
      exact this

/-- Claim C8: merge is associative: for well-formed layers `A`, `B`, `C` of
equal shape, `(A + B) + C` and `A + (B + C)` produce structurally equal
layers. -/
theorem merge_assoc (A B C : Layer) (hA : A.WF) (hB : B.WF) (hC : C.WF)
    (hhAB : A.height = B.height) (hwAB : A.width = B.width)
    (hhBC : B.height = C.height) (hwBC : B.width = C.width) :
    ((A.add B).bind fun ab => ab.add C) = ((B.add C).bind fun bc => A.add bc) := by
  have hlenBA : B.cells.length = A.cells.length := by
    rw [hA.1, hB.1, hhAB, hwAB]
  have hlenCA : C.cells.length = A.cells.length := by
    rw [hA.1, hC.1, hhAB, hwAB, hhBC, hwBC]
  have hlenCB : C.cells.length = B.cells.length := by rw [hlenCA, ← hlenBA]
  rw [Layer.add_spec A B hA hlenBA hhAB hwAB]
  rw [Layer.add_spec B C hB hlenCB hhBC hwBC]
  simp only [Except.bind]
  set AB : Layer := ⟨mergeCellList A.cells 0 B.cells, A.height, A.width⟩ with hABdef
  set BC : Layer := ⟨mergeCellList B.cells 0 C.cells, B.height, B.width⟩ with hBCdef
  have hABwf : AB.WF := merge_WF A B hA hB hhAB hwAB
  have hBCwf : BC.WF := merge_WF B C hB hC hhBC hwBC
  have hABlen : AB.cells.length = A.cells.length := mergeCellList_length B.cells A.cells 0
  have hBClen : BC.cells.length = B.cells.length := mergeCellList_length C.cells B.cells 0
  rw [Layer.add_spec AB C hABwf (by rw [hABlen, hlenCA]) (by rw [hABdef, hhAB, hhBC])
    (by rw [hABdef, hwAB, hwBC])]
  rw [Layer.add_spec A BC hA (by rw [hBClen, hlenBA]) (by rw [hBCdef]; exact hhAB)
    (by rw [hBCdef]; exact hwAB)]
  have hcells : mergeCellList AB.cells 0 C.cells = mergeCellList A.cells 0 BC.cells := by
    apply List.ext_getElem
    · simp [mergeCellList_length, hABlen, hBClen, hlenBA]
    · intro i h1 h2
      have hiAB : i < AB.cells.length := by
        rw [mergeCellList_length] at h1; exact h1
      have hiA : i < A.cells.length := by rw [← hABlen]; exact hiAB
      have hiB : i < B.cells.length := by omega
      have hiC : i < C.cells.length := by omega
      rw [← List.getD_eq_getElem _ default h1, ← List.getD_eq_getElem _ default h2]
      rw [merged_cellAt AB C (by rw [hABlen, hlenCA]) i hiAB]
      rw [merged_cellAt A BC (by rw [hBClen, hlenBA]) i hiA]
      have hABat : cellAt AB i = (mergeCellList A.cells 0 B.cells).getD i default := rfl
      have hBCat : cellAt BC i = (mergeCellList B.cells 0 C.cells).getD i default := rfl
      rw [hABat, merged_cellAt A B hlenBA i hiA]
      rw [hBCat, merged_cellAt B C hlenCB i hiB]
      by_cases htC : (cellAt C i).is_transparent
      · by_cases htB : (cellAt B i).is_transparent
        · simp only [if_pos htC, if_pos htB]
        · simp only [if_pos htC, if_neg htB]
      · simp only [if_neg htC]
  rw [hcells]

/-- Claim C9: merging any well-formed layer with an all-blank layer of the
same shape returns the original layer unchanged, as a structurally equal
value. -/
theorem merge_blank_identity (A T : Layer) (hA : A.WF)
    (hh : A.height = T.height) (hw : A.width = T.width)
    (ht : ∀ c ∈ T.cells, c.is_transparent = true) :
    A.add T = .ok A := by
  unfold Layer.add
  rw [Layer.copy_eq_self A hA]
  show A.iadd T = .ok A
  unfold Layer.iadd
  rw [if_pos ⟨hh, hw⟩]
  rw [iaddCells_all_transparent T.cells A.cells 0 ht]

theorem getCell_ok (l : Layer) (hlen : l.cells.length = l.height * l.width)
    (r c : Nat) (hr : r < l.height) (hc : c < l.width) :
    l.getCell r c = .ok (cellAt l (l.width * r + c)) := by
  unfold Layer.getCell
  rw [if_neg (by omega)]
  have hib : l.width * r + c < l.cells.length := by
    have h1 : l.width * r + c < l.width * (r + 1) := by
      rw [Nat.mul_succ]; omega
    have h2 : l.width * (r + 1) ≤ l.width * l.height := Nat.mul_le_mul_left l.width hr
    have h3 : l.cells.length = l.height * l.width := hlen
    have h4 : l.height * l.width = l.width * l.height := Nat.mul_comm l.height l.width
    omega
  rw [List.get?_eq_getElem?, List.getElem?_eq_getElem hib]
  rw [← List.getD_eq_getElem _ default hib]
  rfl

/-- Claim C1: for well-formed layers `A` and `B` of equal height and width,
the pure merge `A + B` succeeds, and its cell at every position `(r, c)` is
`B`'s cell there when that cell is non-blank, and `A`'s cell there
otherwise. -/
theorem merge_pointwise (A B : Layer) (hA : A.WF) (hB : B.WF)
    (hh : A.height = B.height) (hw : A.width = B.width)
    (r c : Nat) (hr : r < A.height) (hc : c < A.width) :
    ∃ M ac bc, A.add B = .ok M ∧ A.getCell r c = .ok ac ∧ B.getCell r c = .ok bc ∧
      M.getCell r c = .ok (if bc.is_transparent then ac else bc) := by
  have hlen : B.cells.length = A.cells.length := by
    rw [hA.1, hB.1, hh, hw]
  set M : Layer := ⟨mergeCellList A.cells 0 B.cells, A.height, A.width⟩ with hMdef
  have hMwf : M.WF := merge_WF A B hA hB hh hw
  have hMlen : M.cells.length = A.cells.length := mergeCellList_length B.cells A.cells 0
  set i : Nat := A.width * r + c with hidef
  have hiA : i < A.cells.length := by
    have h1 : A.width * r + c < A.width * (r + 1) := by
      rw [Nat.mul_succ]; omega
    have h2 : A.width * (r + 1) ≤ A.width * A.height := Nat.mul_le_mul_left A.width hr
    have h3 : A.cells.length = A.height * A.width := hA.1
    have h4 : A.height * A.width = A.width * A.height := Nat.mul_comm A.height A.width
    omega
  refine ⟨M, cellAt A i, cellAt B i, Layer.add_spec A B hA hlen hh hw, ?_, ?_, ?_⟩
  · exact getCell_ok A hA.1 r c hr hc
  · have := getCell_ok B hB.1 r c (hh ▸ hr) (hw ▸ hc)
    rw [this]
    rw [show B.width * r + c = i from by rw [hidef, hw]]
  · have hMcell := getCell_ok M hMwf.1 r c hr hc
    rw [hMcell]
    have : cellAt M (M.width * r + c) = (mergeCellList A.cells 0 B.cells).getD i default := rfl
    rw [this, merged_cellAt A B hlen i hiA]

theorem merge_pointwise_witness :
    ∃ M ac bc, exA.add exB = .ok M ∧ exA.getCell 0 1 = .ok ac ∧ exB.getCell 0 1 = .ok bc ∧
      M.getCell 0 1 = .ok (if bc.is_transparent then ac else bc) :=
  merge_pointwise exA exB (by decide) (by decide) (by decide) (by decide) 0 1
    (by decide) (by decide)

theorem merge_assoc_witness :
    ((exA.add exB).bind fun ab => ab.add exC) = ((exB.add exC).bind fun bc => exA.add bc) :=
  merge_assoc exA exB exC (by decide) (by decide) (by decide)
    (by decide) (by decide) (by decide) (by decide)

theorem merge_blank_identity_witness :
    exA.add exT = .ok exA :=
  merge_blank_identity exA exT (by decide) (by decide) (by decide) (by decide)

theorem addH_frame (h : Heap) (a b : Nat) (h' : Heap) (n : Nat)
    (hok : addH h a b = .ok (h', n)) :
    (∀ i, i < heapLen h → List.get? h' i = List.get? h i) ∧ heapLen h ≤ heapLen h' := by
  unfold addH at hok
  cases h1 : readL h a with
  | error e => rw [h1] at hok; cases hok
  | ok s =>
    rw [h1] at hok
    dsimp only at hok
    cases h2 : s.copy with
    | error e => rw [h2] at hok; cases hok
    | ok copied =>
      rw [h2] at hok
      dsimp only at hok
      cases h3 : iaddH (h ++ [copied]) (heapLen h) b with
      | error e => rw [h3] at hok; cases hok
      | ok h2' =>
        rw [h3] at hok
        dsimp only at hok
        cases hok
        unfold iaddH at h3
        cases h4 : readL (h ++ [copied]) (heapLen h) with
        | error e => rw [h4] at h3; cases h3
        | ok s2 =>
          rw [h4] at h3
          dsimp only at h3
          cases h5 : readL (h ++ [copied]) b with
          | error e => rw [h5] at h3; cases h3
          | ok o =>
            rw [h5] at h3
            dsimp only at h3
            cases h6 : s2.iadd o with
            | error e => rw [h6] at h3; cases h3
            | ok s' =>
              rw [h6] at h3
              dsimp only at h3
              cases h3
              constructor
              · intro i hi
                have hi' : i < List.length h := hi
                show ((h ++ [copied]).set (List.length h) s').get? i = h.get? i
                rw [List.get?_eq_getElem?, List.getElem?_set_ne (by omega),
                  List.getElem?_append_left hi', ← List.get?_eq_getElem?]
              · show List.length h ≤ List.length ((h ++ [copied]).set (List.length h) s')
                rw [List.length_set, List.length_append]
                simp

theorem foldAddH_frame :
    ∀ (os : List Nat) (h : Heap) (acc : Nat) (h' : Heap) (a' : Nat),
      foldAddH h acc os = .ok (h', a') →
      (∀ i, i < heapLen h → List.get? h' i = List.get? h i) ∧ heapLen h ≤ heapLen h' := by
  intro os
  induction os with
  | nil =>
    intro h acc h' a' hok
    cases hok
    exact ⟨fun i _ => rfl, le_rfl⟩
  | cons o rest ih =>
    intro h acc h' a' hok
    unfold foldAddH at hok
    cases h1 : addH h acc o with
    | error e => rw [h1] at hok; cases hok
    | ok p =>
      rw [h1] at hok
      obtain ⟨h1', acc1⟩ := p
      have hf1 := addH_frame h acc o h1' acc1 h1
      have hf2 := ih h1' acc1 h' a' hok
      constructor
      · intro i hi
        rw [hf2.1 i (by omega), hf1.1 i hi]
      · omega

/-- Claim C5: rendering a composite and the pure merge never mutate any
stored layer object: on the heap model, `Layer.__add__` and the flattening
fold of `Canvas.__str__` write only freshly allocated objects, so every
pre-existing heap object — in particular every layer the canvas holds and
both inputs of a pure merge — holds the same value afterwards. -/
theorem render_no_mutation :
    (∀ (h : Heap) (a b : Nat) (h' : Heap) (n : Nat), addH h a b = .ok (h', n) →
      ∀ i, i < heapLen h → List.get? h' i = List.get? h i) ∧
    (∀ (h : Heap) (c : CanvasH) (h' : Heap) (s : String), canvas_strH h c = .ok (h', s) →
      (∀ i, i < heapLen h → List.get? h' i = List.get? h i) ∧
      (∀ a ∈ c.layer_addrs, a < heapLen h → List.get? h' a = List.get? h a)) := by
  constructor
  · intro h a b h' n hok
    exact (addH_frame h a b h' n hok).1
  · intro h c h' s hok
    unfold canvas_strH at hok
    cases hl : c.layer_addrs with
    | nil =>
      rw [hl] at hok
      cases hok
      exact ⟨fun i _ => rfl, fun a ha => by cases ha⟩
    | cons first others =>
      rw [hl] at hok
      dsimp only at hok
      cases h1 : foldAddH h first others with
      | error e => rw [h1] at hok; cases hok
      | ok p =>
        rw [h1] at hok
        obtain ⟨h1', a1⟩ := p
        dsimp only at hok
        cases h2 : readL h1' a1 with
        | error e => rw [h2] at hok; cases hok
        | ok flattened =>
          rw [h2] at hok
          dsimp only at hok
          cases h3 : flattened.render with
          | error e => rw [h3] at hok; cases hok
          | ok str =>
            rw [h3] at hok
            dsimp only at hok
            cases hok
            have hf := foldAddH_frame others h first _ _ h1
            exact ⟨hf.1, fun a ha hlt => hf.1 a hlt⟩

theorem render_no_mutation_witness :
    (∀ i, i < heapLen [exA, exT] → List.get? [exA, exT, exA] i = List.get? [exA, exT] i) ∧
    (∀ a ∈ [0, 1], a < heapLen [exA, exT] → List.get? [exA, exT, exA] a = List.get? [exA, exT] a) :=
  ⟨render_no_mutation.1 [exA, exT] 0 1 [exA, exT, exA] 2 (by decide),
   (render_no_mutation.2 [exA, exT] ⟨2, 2, [0, 1]⟩ [exA, exT, exA] "a \ncd" (by decide)).2⟩

theorem count_not_contains (w : Word) (x : Char) (h : w.contains x = false) :
    w.count x = .ok (w, 0) := by
  unfold Word.count
  rw [if_pos (by simp [h])]

theorem count_zero (w : Word) (x : Char) (w' : Word) (h : w.count x = .ok (w', 0)) :
    w' = w := by
  unfold Word.count at h
  by_cases hc : w.contains x = true
  · rw [if_neg (by simp [hc])] at h
    cases hf : findIndices w.character_indices x with
    | none => rw [hf] at h; cases h
    | some indices =>
      rw [hf] at h
      dsimp only at h
      cases hw : writeIndices w.masked x indices with
      | error e => rw [hw] at h; cases h
      | ok masked' =>
        rw [hw] at h
        dsimp only at h
        have h1 := Except.ok.inj h
        have h2 : indices = [] := by
          have hsnd := congrArg Prod.snd h1
          simp at hsnd
          exact hsnd
        subst h2
        cases hw
        have hfst := congrArg Prod.fst h1
        simp at hfst
        exact hfst.symm
  · rw [if_pos hc] at h
    cases h
    rfl

theorem from_layer_spec (l : Layer) :
    Canvas.from_layer l = .ok ⟨l.height, l.width, [l]⟩ := by
  unfold Canvas.from_layer Canvas.add_layers Canvas.init
  rw [if_pos (by simp [Canvas.fits_layer])]
  rfl

theorem init_spec (comps : Components) (w : List Char) (k : Int) :
    GameRound.init comps w k = .ok
      { canvas := ⟨comps.gallows.height, comps.gallows.width, [comps.gallows]⟩
        layer_stack := [comps.head, comps.trunk, comps.left_arm, comps.right_arm,
                        comps.left_leg, comps.right_leg]
        word := Word.init w
        coefficient := k
        guesses := [] } := by
  unfold GameRound.init
  rw [from_layer_spec comps.gallows]

theorem init_all_clear_false (w : List Char) (hw : w ≠ []) :
    (Word.init w).all_clear = false := by
  cases w with
  | nil => cases hw rfl
  | cons c rest =>
    show (List.replicate (c :: rest).length '_').all (fun ch => ch != '_') = false
    rw [List.length_cons, List.replicate_succ]
    simp

theorem loopCond_true (r : GameRound) (h1 : r.word.all_clear = false)
    (h2 : r.layer_stack ≠ []) : loopCond r = true := by
  unfold loopCond GameRound.lives_left
  rw [h1]
  simp [List.length_eq_zero, h2]

theorem loopCond_false_of_lost (r : GameRound) (h : r.layer_stack = []) :
    loopCond r = false := by
  unfold loopCond GameRound.lives_left
  rw [h]
  simp

theorem loopCond_false_of_clear (r : GameRound) (h : r.word.all_clear = true) :
    loopCond r = false := by
  unfold loopCond
  rw [h]
  simp

theorem start_turn_incorrect_more (comps : Components) (g : GameScore) (r : GameRound)
    (x : Char) (l a : Layer) (t : List Layer)
    (hcon : r.word.contains x = false)
    (hstack : r.layer_stack = l :: a :: t)
    (hfitl : r.canvas.fits_layer l = true) :
    start_turn comps g r x = .ok
      (g.penalize_incorrect_guess r.coefficient,
       { canvas := { r.canvas with layers := r.canvas.layers ++ [l] }
         layer_stack := a :: t
         word := r.word
         coefficient := r.coefficient
         guesses := addGuess r.guesses x }) := by
  unfold start_turn
  rw [count_not_contains r.word x hcon]
  dsimp only
  rw [if_pos rfl]
  unfold handle_incorrect_guess GameRound.minus_1_life
  dsimp only
  rw [hstack]
  dsimp only
  unfold Canvas.add_layers
  rw [if_pos (by simp [hfitl])]
  dsimp only
  rw [if_neg (by simp [GameRound.lives_left])]

theorem start_turn_incorrect_last (comps : Components) (g : GameScore) (r : GameRound)
    (x : Char) (l : Layer)
    (hcon : r.word.contains x = false)
    (hstack : r.layer_stack = [l])
    (hfitl : r.canvas.fits_layer l = true)
    (hfity : r.canvas.fits_layer comps.you_lost = true) :
    start_turn comps g r x = .ok
      (g.penalize_incorrect_guess r.coefficient,
       { canvas := { r.canvas with layers := r.canvas.layers ++ [l] ++ [comps.you_lost] }
         layer_stack := []
         word := r.word
         coefficient := r.coefficient
         guesses := addGuess r.guesses x }) := by
  unfold start_turn
  rw [count_not_contains r.word x hcon]
  dsimp only
  rw [if_pos rfl]
  unfold handle_incorrect_guess GameRound.minus_1_life
  dsimp only
  rw [hstack]
  dsimp only
  unfold Canvas.add_layers
  rw [if_pos (by simp [hfitl])]
  dsimp only [GameRound.lives_left]
  rw [if_pos (show ([] : List Layer).length = 0 from rfl)]
  rw [if_pos (by simp [Canvas.fits_layer] at hfity ⊢; exact hfity)]

theorem run_turns_nil (comps : Components) (g : GameScore) (r : GameRound) :
    run_turns comps g r [] = .ok (g, r) := rfl

theorem run_turns_cons (comps : Components) (g : GameScore) (r : GameRound)
    (x : Char) (xs : List Char) :
    run_turns comps g r (x :: xs) =
      if loopCond r then
        match start_turn comps g r x with
        | .error e => .error e
        | .ok (g', r') => run_turns comps g' r' xs
      else .ok (g, r) := rfl

theorem run_incorrect_chain (comps : Components) :
    ∀ (gs : List Char) (stack : List Layer) (g : GameScore) (r : GameRound),
      r.layer_stack = stack →
      gs.length = stack.length →
      (∀ x ∈ gs, r.word.contains x = false) →
      r.word.all_clear = false →
      (∀ l ∈ stack, r.canvas.fits_layer l = true) →
      r.canvas.fits_layer comps.you_lost = true →
      (∀ i, i ≤ gs.length → ∃ p, run_turns comps g r (gs.take i) = .ok p ∧
        p.2.lives_left = stack.length - i) ∧
      (∃ g' r', run_turns comps g r gs = .ok (g', r') ∧ r'.layer_stack = [] ∧
        r'.word = r.word ∧
        r'.canvas.layers = r.canvas.layers ++ stack ++
          (if stack.isEmpty then [] else [comps.you_lost])) := by
  intro gs
  induction gs with
  | nil =>
    intro stack g r hstack hlen _ _ _ _
    have hstack0 : stack = [] := by
      cases stack with
      | nil => rfl
      | cons a t => simp at hlen
    subst hstack0
    constructor
    · intro i hi
      have hi0 : i = 0 := by simpa using hi
      subst hi0
      exact ⟨(g, r), run_turns_nil comps g r, by
        show r.layer_stack.length = 0 - 0
        rw [hstack]
        rfl⟩
    · exact ⟨g, r, run_turns_nil comps g r, hstack, rfl, by simp⟩
  | cons x gs' ih =>
    intro stack g r hstack hlen hcon hclear hfits hfity
    cases stack with
    | nil => simp at hlen
    | cons l rest =>
      have hconx : r.word.contains x = false := hcon x (List.mem_cons_self x gs')
      have hloop : loopCond r = true :=
        loopCond_true r hclear (by rw [hstack]; simp)
      have hfitl : r.canvas.fits_layer l = true :=
        hfits l (List.mem_cons_self l rest)
      cases rest with
      | nil =>
        have hgs0 : gs' = [] := by
          cases gs' with
          | nil => rfl
          | cons y t => simp at hlen
        subst hgs0
        have hstep := start_turn_incorrect_last comps g r x l hconx hstack hfitl hfity
        have hrun : run_turns comps g r [x] = .ok
            (g.penalize_incorrect_guess r.coefficient,
             { canvas := { r.canvas with layers := r.canvas.layers ++ [l] ++ [comps.you_lost] }
               layer_stack := []
               word := r.word
               coefficient := r.coefficient
               guesses := addGuess r.guesses x }) := by
          rw [run_turns_cons, if_pos hloop, hstep]
          rfl
        constructor
        · intro i hi
          have : i = 0 ∨ i = 1 := by simp at hi; omega
          cases this with
          | inl h0 =>
            subst h0
            exact ⟨(g, r), run_turns_nil comps g r, by
              show r.layer_stack.length = [l].length - 0
              rw [hstack]
              rfl⟩
          | inr h1 =>
            subst h1
            exact ⟨_, hrun, rfl⟩
        · exact ⟨_, _, hrun, rfl, rfl, by simp⟩
      | cons a t =>
        have hstep := start_turn_incorrect_more comps g r x l a t hconx hstack hfitl
        have hlen' : gs'.length = (a :: t).length := by simpa using hlen
        have hih := ih (a :: t) (g.penalize_incorrect_guess r.coefficient)
          { canvas := { r.canvas with layers := r.canvas.layers ++ [l] }
            layer_stack := a :: t
            word := r.word
            coefficient := r.coefficient
            guesses := addGuess r.guesses x }
          rfl hlen'
          (fun y hy => hcon y (List.mem_cons_of_mem x hy))
          hclear
          (fun l' hl' => hfits l' (List.mem_cons_of_mem l hl'))
          hfity
        obtain ⟨hpre, g', r', hrun', hstack', hword', hlayers'⟩ := hih
        constructor
        · intro i hi
          cases i with
          | zero =>
            exact ⟨(g, r), run_turns_nil comps g r, by
              show r.layer_stack.length = (l :: a :: t).length - 0
              rw [hstack]
              rfl⟩
          | succ j =>
            have hj : j ≤ gs'.length := by simpa using hi
            obtain ⟨p, hp, hplives⟩ := hpre j hj
            refine ⟨p, ?_, ?_⟩
            · show run_turns comps g r (x :: gs'.take j) = .ok p
              rw [run_turns_cons, if_pos hloop, hstep]
              exact hp
            · rw [hplives]
              simp only [List.length_cons]
              omega
        · refine ⟨g', r', ?_, hstack', hword', ?_⟩
          · rw [run_turns_cons, if_pos hloop, hstep]
            exact hrun'
          · rw [hlayers']
            simp

/-- Claim C3: a round beginning with the reserve stack of 6 body-part
layers that receives 6 consecutive incorrect guesses loses one life per
guess (`lives_left` runs 6, 5, …, 0), ends in the lost state, and adds
exactly 7 layers to the composite beyond the initial gallows base: the 6
body parts in order followed by the loss overlay. -/
theorem round_six_incorrect (comps : Components) (g : GameScore) (w : List Char) (k : Int)
    (g1 g2 g3 g4 g5 g6 : Char)
    (hfit : comps.fit = true)
    (hw : w ≠ [])
    (hinc : ∀ x ∈ [g1, g2, g3, g4, g5, g6], (Word.init w).contains x = false) :
    ∃ r0, GameRound.init comps w k = .ok r0 ∧
      (∀ i, i ≤ 6 → ∃ p, run_turns comps g r0 ([g1, g2, g3, g4, g5, g6].take i) = .ok p ∧
        p.2.lives_left = 6 - i) ∧
      (∃ p, run_turns comps g r0 [g1, g2, g3, g4, g5, g6] = .ok p ∧
        p.2.lives_left = 0 ∧ p.2.status = .lost ∧
        p.2.canvas.layers = [comps.gallows, comps.head, comps.trunk, comps.left_arm,
          comps.right_arm, comps.left_leg, comps.right_leg, comps.you_lost]) := by
  unfold Components.fit at hfit
  simp only [List.all_cons, List.all_nil, Bool.and_true, Bool.and_eq_true, beq_iff_eq] at hfit
  obtain ⟨⟨h1h, h1w⟩, ⟨h2h, h2w⟩, ⟨h3h, h3w⟩, ⟨h4h, h4w⟩, ⟨h5h, h5w⟩, ⟨h6h, h6w⟩,
    h7h, h7w⟩ := hfit
  refine ⟨_, init_spec comps w k, ?_⟩
  have hfits : ∀ l ∈ [comps.head, comps.trunk, comps.left_arm, comps.right_arm,
      comps.left_leg, comps.right_leg],
      (Canvas.mk comps.gallows.height comps.gallows.width [comps.gallows]).fits_layer l = true := by
    intro l hl
    simp only [List.mem_cons, List.not_mem_nil, or_false] at hl
    rcases hl with h | h | h | h | h | h <;> subst h <;> simp [Canvas.fits_layer, *]
  have hfity :
      (Canvas.mk comps.gallows.height comps.gallows.width [comps.gallows]).fits_layer
        comps.you_lost = true := by
    simp [Canvas.fits_layer, h7h, h7w]
  have hchain := run_incorrect_chain comps [g1, g2, g3, g4, g5, g6]
    [comps.head, comps.trunk, comps.left_arm, comps.right_arm, comps.left_leg, comps.right_leg]
    g
    { canvas := ⟨comps.gallows.height, comps.gallows.width, [comps.gallows]⟩
      layer_stack := [comps.head, comps.trunk, comps.left_arm, comps.right_arm,
                      comps.left_leg, comps.right_leg]
      word := Word.init w
      coefficient := k
      guesses := [] }
    rfl rfl hinc (init_all_clear_false w hw) hfits hfity
  obtain ⟨hpre, g', r', hrun, hstack', hword', hlayers'⟩ := hchain
  constructor
  · intro i hi
    exact hpre i (by simpa using hi)
  · refine ⟨(g', r'), hrun, ?_, ?_, ?_⟩
    · show r'.layer_stack.length = 0
      rw [hstack']
      rfl
    · unfold GameRound.status GameRound.lives_left
      rw [hstack']
      rfl
    · rw [hlayers']
      simp

theorem round_six_incorrect_witness :
    ∃ r0, GameRound.init exComps ['A'] 2 = .ok r0 ∧
      (∀ i, i ≤ 6 → ∃ p, run_turns exComps (GameScore.init 2 (-1)) r0
          (['B', 'C', 'D', 'E', 'F', 'H'].take i) = .ok p ∧
        p.2.lives_left = 6 - i) ∧
      (∃ p, run_turns exComps (GameScore.init 2 (-1)) r0 ['B', 'C', 'D', 'E', 'F', 'H'] = .ok p ∧
        p.2.lives_left = 0 ∧ p.2.status = .lost ∧
        p.2.canvas.layers = [exComps.gallows, exComps.head, exComps.trunk, exComps.left_arm,
          exComps.right_arm, exComps.left_leg, exComps.right_leg, exComps.you_lost]) :=
  round_six_incorrect exComps (GameScore.init 2 (-1)) ['A'] 2 'B' 'C' 'D' 'E' 'F' 'H'
    (by decide) (by decide) (by decide)

theorem start_turn_cases (comps : Components) (g : GameScore) (r : GameRound) (x : Char)
    (g' : GameScore) (r' : GameRound)
    (hok : start_turn comps g r x = .ok (g', r')) :
    r'.lives_left = r.lives_left ∨
      (r'.word.all_clear = r.word.all_clear ∧ r'.lives_left + 1 = r.lives_left) := by
  unfold start_turn at hok
  cases hcount : r.word.count x with
  | error e => rw [hcount] at hok; cases hok
  | ok p =>
    obtain ⟨w', n⟩ := p
    rw [hcount] at hok
    dsimp only at hok
    by_cases hn : n = 0
    · subst hn
      rw [if_pos rfl] at hok
      have hw' : w' = r.word := count_zero r.word x w' hcount
      subst hw'
      unfold handle_incorrect_guess GameRound.minus_1_life at hok
      dsimp only at hok
      cases hstack : r.layer_stack with
      | nil => rw [hstack] at hok; cases hok
      | cons l rest =>
        rw [hstack] at hok
        dsimp only at hok
        cases hadd : Canvas.add_layers r.canvas [l] with
        | error e => rw [hadd] at hok; cases hok
        | ok c2 =>
          rw [hadd] at hok
          dsimp only [GameRound.lives_left] at hok
          by_cases hrest : rest.length = 0
          · rw [if_pos hrest] at hok
            cases hadd2 : Canvas.add_layers c2 [comps.you_lost] with
            | error e => rw [hadd2] at hok; cases hok
            | ok c3 =>
              rw [hadd2] at hok
              cases hok
              right
              refine ⟨rfl, ?_⟩
              show rest.length + 1 = r.layer_stack.length
              rw [hstack]
              rfl
          · rw [if_neg hrest] at hok
            cases hok
            right
            refine ⟨rfl, ?_⟩
            show rest.length + 1 = r.layer_stack.length
            rw [hstack]
            rfl
    · rw [if_neg hn] at hok
      cases hok
      left
      rfl

theorem run_turns_preserves (comps : Components) :
    ∀ (xs : List Char) (g : GameScore) (r : GameRound) (g' : GameScore) (r' : GameRound),
      (r.lives_left = 0 → r.word.all_clear = false) →
      run_turns comps g r xs = .ok (g', r') →
      (r'.lives_left = 0 → r'.word.all_clear = false) := by
  intro xs
  induction xs with
  | nil =>
    intro g r g' r' hinv hok
    cases hok
    exact hinv
  | cons x rest ih =>
    intro g r g' r' hinv hok
    rw [run_turns_cons] at hok
    by_cases hc : loopCond r = true
    · rw [if_pos hc] at hok
      cases hstep : start_turn comps g r x with
      | error e => rw [hstep] at hok; cases hok
      | ok p =>
        obtain ⟨g1, r1⟩ := p
        rw [hstep] at hok
        dsimp only at hok
        unfold loopCond at hc
        rw [Bool.and_eq_true] at hc
        have hclear : r.word.all_clear = false := by
          have h1 := hc.1
          cases h : r.word.all_clear
          · rfl
          · rw [h] at h1; cases h1
        have hlives : r.lives_left ≠ 0 := by
          have h2 := hc.2
          simpa using h2
        have hinv1 : r1.lives_left = 0 → r1.word.all_clear = false := by
          intro h0
          rcases start_turn_cases comps g r x g1 r1 hstep with heq | ⟨hsame, _⟩
          · rw [heq] at h0
            exact absurd h0 hlives
          · rw [hsame, hclear]
        exact ih g1 r1 g' r' hinv1 hok
    · rw [if_neg hc] at hok
      cases hok
      exact hinv

/-- Claim C4: in every reachable round state the invariant
`lives_left = len(reserve)` holds (it is how `lives_left` is computed), a
turn never increases `lives_left`, the turn loop stops as soon as
`lives_left = 0` or the word is fully revealed, and the two terminal
conditions never hold simultaneously in a state reachable from a round
start. -/
theorem round_invariants :
    (∀ r : GameRound, r.lives_left = r.layer_stack.length) ∧
    (∀ (comps : Components) (g : GameScore) (r : GameRound) (x : Char)
       (g' : GameScore) (r' : GameRound),
      start_turn comps g r x = .ok (g', r') → r'.lives_left ≤ r.lives_left) ∧
    (∀ (comps : Components) (g : GameScore) (r : GameRound) (xs : List Char),
      (r.lives_left = 0 ∨ r.word.all_clear = true) → run_turns comps g r xs = .ok (g, r)) ∧
    (∀ (comps : Components) (w : List Char) (k : Int) (g : GameScore) (xs : List Char)
       (r0 : GameRound) (g' : GameScore) (r' : GameRound),
      GameRound.init comps w k = .ok r0 → run_turns comps g r0 xs = .ok (g', r') →
      ¬(r'.lives_left = 0 ∧ r'.word.all_clear = true)) := by
  refine ⟨fun r => rfl, ?_, ?_, ?_⟩
  · intro comps g r x g' r' hok
    rcases start_turn_cases comps g r x g' r' hok with heq | ⟨_, hdec⟩
    · omega
    · omega
  · intro comps g r xs hterm
    have hcond : loopCond r = false := by
      rcases hterm with h0 | hc
      · exact loopCond_false_of_lost r (by
          have : r.layer_stack.length = 0 := h0
          exact List.length_eq_zero.mp this)
      · exact loopCond_false_of_clear r hc
    cases xs with
    | nil => rfl
    | cons x rest =>
      rw [run_turns_cons, hcond]
      rfl
  · intro comps w k g xs r0 g' r' hinit hok
    rw [init_spec comps w k] at hinit
    have hr0 : r0 = { canvas := ⟨comps.gallows.height, comps.gallows.width, [comps.gallows]⟩
                      layer_stack := [comps.head, comps.trunk, comps.left_arm, comps.right_arm,
                                      comps.left_leg, comps.right_leg]
                      word := Word.init w
                      coefficient := k
                      guesses := [] } := (Except.ok.inj hinit).symm
    have hinv0 : r0.lives_left = 0 → r0.word.all_clear = false := by
      intro h0
      rw [hr0] at h0
      cases h0
    have := run_turns_preserves comps xs g r0 g' r' hinv0 hok
    rintro ⟨h0, hclear⟩
    rw [this h0] at hclear
    cases hclear

theorem round_invariants_witness :
    (exRound1.lives_left = exRound1.layer_stack.length) ∧
    (start_turn exComps (GameScore.init 2 (-1)) exRound1 'B' =
        .ok (GameScore.init 2 (-1), exRound1After) ∧
      exRound1After.lives_left ≤ exRound1.lives_left) ∧
    ((exRound1After.lives_left = 0 ∨ exRound1After.word.all_clear = true) ∧
      run_turns exComps (GameScore.init 2 (-1)) exRound1After ['C'] =
        .ok (GameScore.init 2 (-1), exRound1After)) ∧
    (GameRound.init exComps ['A'] 2 = .ok exRound0 ∧
      run_turns exComps (GameScore.init 2 (-1)) exRound0 ['B'] =
        .ok (GameScore.init 2 (-1), exRound0After) ∧
      ¬(exRound0After.lives_left = 0 ∧ exRound0After.word.all_clear = true)) :=
  ⟨round_invariants.1 exRound1,
   ⟨by decide,
    round_invariants.2.1 exComps (GameScore.init 2 (-1)) exRound1 'B'
      (GameScore.init 2 (-1)) exRound1After (by decide)⟩,
   ⟨Or.inl (by decide),
    round_invariants.2.2.1 exComps (GameScore.init 2 (-1)) exRound1After ['C']
      (Or.inl (by decide))⟩,
   ⟨by decide, by decide,
    round_invariants.2.2.2 exComps ['A'] 2 (GameScore.init 2 (-1)) ['B'] exRound0
      (GameScore.init 2 (-1)) exRound0After (by decide) (by decide)⟩⟩

end Hangman
